import Mathlib

/-! Contextify: the global-proxy interceptors and the entry points of `src/contextify.cc`.

The development embeds the C++ add-on in three layers.

* `Contextify.V8`: the part of the v8 object API that the add-on calls
  (`GetRealNamedProperty`, `Set`, `Delete`, `GetPropertyNames`), over a heap of
  objects with named data properties, property attributes and prototype links.
* The five named-property interceptors of `ContextWrap` and `weakCallback`.
* The four script-facing entry points (`ContextifyContext::New`, `::Run`,
  `ContextifyScript::New`, `::RunInContext`) over a `World` of allocated resources.

Scope of the object model.  Properties are data properties, named by strings; a name that
is an array index counts as an element, which matters for the order of enumeration.  The
one accessor property represented is the built-in `__proto__` of `Object.prototype`, whose
setter `v8::Object::Set` runs; accessor properties defined by the caller are not
represented, and getters are never run: reads see data properties only.
-/

namespace Contextify

/-! ## JavaScript values and heap objects -/

/-- JavaScript values as they cross the v8 API; objects are handles into the heap. -/
inductive Value where
  | undefined
  | null
  | boolean (b : Bool)
  | number (n : Int)
  | string (s : String)
  | object (id : Nat)
  deriving DecidableEq, Repr

/-- The v8 enum `PropertyAttribute` (`None = 0`, `ReadOnly = 1`, `DontEnum = 2`,
`DontDelete = 4`), kept as its three flags. -/
structure PropertyAttribute where
  ReadOnly : Bool
  DontEnum : Bool
  DontDelete : Bool
  deriving DecidableEq, Repr

/-- The enum value `None`: no special attributes. -/
def PropertyAttribute.None : PropertyAttribute := ⟨false, false, false⟩

/-- One named data property of an object. -/
structure Property where
  name : String
  value : Value
  attributes : PropertyAttribute
  deriving DecidableEq, Repr

/-- The function templates the add-on instantiates objects from. -/
inductive Template where
  | jsTmpl
  | scriptTmpl
  | functionTemplate
  | ftmpl (className : String)
  deriving DecidableEq, Repr

/-- A heap object: its own data properties in insertion order, its prototype link, whether
new properties may be added, the template it was instantiated from (if any), the name
reported by `GetConstructorName`, and whether it carries the built-in accessor property
`__proto__`, as `Object.prototype` does. -/
structure JSObject where
  properties : List Property
  prototype : Option Nat
  extensible : Bool
  tmpl : Option Template
  constructorName : String
  protoAccessor : Bool
  deriving DecidableEq, Repr

/-- The v8 heap; a handle is an index. -/
abbrev Heap := List JSObject

namespace V8

/-- Own-property lookup on one object. -/
def ownProperty (o : JSObject) (key : String) : Option Property :=
  o.properties.find? (fun p => p.name == key)

/-- The object `id` followed by its prototypes, nearest first.  `fuel` bounds the walk; the
API functions below pass the heap size, which covers every acyclic chain
(see `prototypeChain_fuel`). -/
def prototypeChain : Nat → Heap → Nat → List (Nat × JSObject)
  | 0, _, _ => []
  | fuel + 1, h, id =>
    match h[id]? with
    | none => []
    | some o =>
      (id, o) :: (match o.prototype with
        | none => []
        | some p => prototypeChain fuel h p)

/-- First own property called `key` along a chain of objects. -/
def chainProperty (chain : List (Nat × JSObject)) (key : String) : Option Property :=
  chain.findSome? (fun e => ownProperty e.2 key)

/-- `v8::Object::GetRealNamedProperty(key)`.  v8.h: "If result.IsEmpty(), no real property
was located on the object or in the prototype chain.  This means interceptors in the
prototype chain are not called."  The lookup covers the data properties of the object and
of its prototype chain; `none` is the empty handle. -/
def GetRealNamedProperty (h : Heap) (self : Nat) (key : String) : Option Value :=
  (chainProperty (prototypeChain h.length h self) key).map (fun p => p.value)

/-- The ECMAScript `[[CanPut]]` check that `v8::Object::Set` applies to data properties: an
own property must not be `ReadOnly`; otherwise the object must be extensible and an
inherited property of that name must not be `ReadOnly`. -/
def CanPut (h : Heap) (self : Nat) (key : String) : Bool :=
  match h[self]? with
  | none => false
  | some o =>
    match ownProperty o key with
    | some p => !p.attributes.ReadOnly
    | none =>
      match chainProperty (prototypeChain h.length h self) key with
      | some p => !p.attributes.ReadOnly && o.extensible
      | none => o.extensible

/-- Store `key = value` on one object: overwrite the own property in place, or append a new
property with attributes `None`. -/
def put (o : JSObject) (key : String) (value : Value) : JSObject :=
  if (ownProperty o key).isSome then
    { o with properties :=
        o.properties.map (fun p => if p.name == key then { p with value := value } else p) }
  else
    { o with properties := o.properties ++ [⟨key, value, PropertyAttribute.None⟩] }

/-- Whether a store of `key` on `self` reaches the built-in `__proto__` accessor: the key is
`__proto__` and the nearest object on the prototype chain that has a data property of that
name or carries the accessor is one that carries the accessor. -/
def reachesProtoAccessor (h : Heap) (self : Nat) (key : String) : Bool :=
  key == "__proto__" &&
    match (prototypeChain h.length h self).find?
        (fun e => (ownProperty e.2 key).isSome || e.2.protoAccessor) with
    | some e => (ownProperty e.2 key).isNone
    | none => false

/-- The setter of the built-in `__proto__` accessor, run with `self` as receiver.  An
object or `null` becomes the prototype of the receiver, provided the receiver is
extensible and the new link closes no cycle; any other value is ignored.  Nothing but the
prototype link of the receiver changes.  A refused change leaves the heap as it was; the
exception the engine raises for it is not represented. -/
def SetPrototype (h : Heap) (self : Nat) (value : Value) : Heap :=
  match h[self]? with
  | none => h
  | some o =>
    match value with
    | Value.null =>
      if o.extensible then h.set self { o with prototype := none } else h
    | Value.object p =>
      if o.extensible && h[p]?.isSome
          && !((prototypeChain h.length h p).map Prod.fst).contains self then
        h.set self { o with prototype := some p }
      else h
    | _ => h

/-- `v8::Object::Set(key, value)`: an ordinary (sloppy-mode) property store on the receiver.
A store that reaches the built-in `__proto__` accessor runs its setter and stores no
property.  Any other store is checked by `CanPut` and silently dropped when rejected.  The
boolean that v8 returns is not modelled: the add-on discards it. -/
def Set (h : Heap) (self : Nat) (key : String) (value : Value) : Heap :=
  match h[self]? with
  | none => h
  | some o =>
    if reachesProtoAccessor h self key then SetPrototype h self value
    else if CanPut h self key then h.set self (put o key value) else h

/-- Remove the own property `key` from one object. -/
def remove (o : JSObject) (key : String) : JSObject :=
  { o with properties := o.properties.filter (fun q => !(q.name == key)) }

/-- `v8::Object::Delete(key)`: the ECMAScript `[[Delete]]` of an own property in sloppy
mode.  An absent property gives `true` with nothing changed, a `DontDelete` property gives
`false` with nothing changed, any other own property is removed and gives `true`. -/
def Delete (h : Heap) (self : Nat) (key : String) : Bool × Heap :=
  match h[self]? with
  | none => (false, h)
  | some o =>
    match ownProperty o key with
    | none => (true, h)
    | some p =>
      if p.attributes.DontDelete then (false, h)
      else (true, h.set self (remove o key))

/-- Names of all own properties of an object, in insertion order. -/
def ownNames (o : JSObject) : List String :=
  o.properties.map (fun p => p.name)

/-- Names of the enumerable own properties of an object, in insertion order. -/
def enumerableNames (o : JSObject) : List String :=
  (o.properties.filter (fun p => !p.attributes.DontEnum)).map (fun p => p.name)

/-- Value of a decimal digit character. -/
def digit (c : Char) : Option Nat :=
  if 48 ≤ c.toNat ∧ c.toNat ≤ 57 then some (c.toNat - 48) else none

/-- Read a run of decimal digits, most significant first. -/
def parseDigits : List Char → Nat → Option Nat
  | [], acc => some acc
  | c :: cs, acc =>
    match digit c with
    | some d => parseDigits cs (10 * acc + d)
    | none => none

/-- The array index a property name denotes, if any: the name is the canonical decimal
form (no leading zero) of a number below `2^32 - 1`.  Such properties are the elements of
an object. -/
def arrayIndex (name : String) : Option Nat :=
  match name.data with
  | [] => none
  | c :: cs =>
    if c.toNat = 48 ∧ !cs.isEmpty then none
    else
      match parseDigits (c :: cs) 0 with
      | some i => if i < 4294967295 then some i else none
      | none => none

/-- The number a name is ordered by among the elements; 0 for a name that is no index. -/
def indexOf (name : String) : Nat := (arrayIndex name).getD 0

/-- The order in which v8 lists the keys of one object: the elements first, by ascending
index, then the other names in insertion order. -/
def orderNames (names : List String) : List String :=
  (names.filter (fun n => (arrayIndex n).isSome)).insertionSort
      (fun a b => indexOf a ≤ indexOf b)
    ++ names.filter (fun n => !(arrayIndex n).isSome)

/-- The array element v8 produces for a key: a number for an element index, a string for
any other name. -/
def keyValue (name : String) : Value :=
  match arrayIndex name with
  | some i => Value.number i
  | none => Value.string name

/-- The for-in walk over a chain of objects: the enumerable names of each object in turn,
in the key order of that object, skipping names already met as own names of a nearer
object. -/
def collectNames : List JSObject → List String → List String
  | [], _ => []
  | o :: rest, seen =>
    orderNames ((enumerableNames o).filter (fun n => !seen.contains n))
      ++ collectNames rest (seen ++ ownNames o)

/-- `v8::Object::GetPropertyNames()`.  v8.h: "Returns an array containing the names of the
enumerable properties of this object, including properties from prototype objects.  The
array returned by this method contains the same values as would be enumerated by a for-in
statement over this object."  Element indices come first in ascending order and are kept
as numbers. -/
def GetPropertyNames (h : Heap) (self : Nat) : List Value :=
  (collectNames ((prototypeChain h.length h self).map Prod.snd) []).map keyValue

/-- The names an object `e` contributes to an enumeration that has passed the nearer
objects `pre`: its enumerable own names that none of `pre` has as an own name, in the key
order of `e`. -/
def visibleNames (pre : List JSObject) (e : JSObject) : List String :=
  orderNames ((enumerableNames e).filter
    (fun n => pre.all (fun x => !(ownNames x).contains n)))

/-- The enumeration of a chain of objects stated object by object: each object of the
chain, paired with the objects nearer than it, contributes its `visibleNames`, the
contributions following the order of the chain. -/
def forInNames (objs : List JSObject) : List String :=
  (objs.inits.zip objs).flatMap (fun pe => visibleNames pe.1 pe.2)

/-- `v8::Object::GetConstructorName()`; the empty string for a dangling handle. -/
def GetConstructorName (h : Heap) (self : Nat) : String :=
  match h[self]? with
  | none => ""
  | some o => o.constructorName

end V8

/-! ## The C++ objects -/

/-- The persistent handles of `class ContextifyContext`: the v8 context, the sandbox and the
global object of the context.  `handle` is `ObjectWrap::handle_`, the JavaScript object the
instance is wrapped in. -/
structure ContextifyContext where
  handle : Nat
  context : Nat
  sandbox : Nat
  proxyGlobal : Nat
  deriving DecidableEq, Repr

/-- The `class ContextWrap`: `ctx` is the `ContextifyContext*` member, `none` for `NULL`.
The pointer is represented by the instance it designates.  `handle` is
`ObjectWrap::handle_`. -/
structure ContextWrap where
  handle : Nat
  ctx : Option ContextifyContext
  deriving DecidableEq, Repr

namespace ContextWrap

/-- `ContextWrap::weakCallback`: `self->ctx = NULL`. -/
def weakCallback (self : ContextWrap) : ContextWrap :=
  { self with ctx := none }

/-- `ContextWrap::GlobalPropertyGetter`.  The result is the content of the callback's
return-value slot: `none` when the slot is left empty (`Set` of an empty handle), which v8
treats as "not intercepted". -/
def GlobalPropertyGetter (h : Heap) (data : ContextWrap) (property : String) : Option Value :=
  match data.ctx with
  | none => some Value.undefined
  | some ctx => V8.GetRealNamedProperty h ctx.sandbox property

/-- `ContextWrap::GlobalPropertySetter`: the return-value slot and the heap afterwards. -/
def GlobalPropertySetter (h : Heap) (data : ContextWrap) (property : String) (value : Value) :
    Option Value × Heap :=
  match data.ctx with
  | none => (some Value.undefined, h)
  | some ctx => (some value, V8.Set h ctx.sandbox property value)

/-- `ContextWrap::GlobalPropertyQuery`: the return-value slot, an attribute set when the
property is reported as existing and `none` (empty handle) when it is not. -/
def GlobalPropertyQuery (h : Heap) (data : ContextWrap) (property : String) :
    Option PropertyAttribute :=
  match data.ctx with
  | none => some PropertyAttribute.None
  | some ctx =>
    if (V8.GetRealNamedProperty h ctx.sandbox property).isSome
        || (V8.GetRealNamedProperty h ctx.proxyGlobal property).isSome then
      some PropertyAttribute.None
    else
      none

/-- `ContextWrap::GlobalPropertyDeleter`: the return-value slot and the heap afterwards. -/
def GlobalPropertyDeleter (h : Heap) (data : ContextWrap) (property : String) :
    Option Bool × Heap :=
  match data.ctx with
  | none => (some false, h)
  | some ctx =>
    let r := V8.Delete h ctx.sandbox property
    (some r.1, r.2)

/-- `ContextWrap::GlobalPropertyEnumerator`: the array placed in the return-value slot. -/
def GlobalPropertyEnumerator (h : Heap) (data : ContextWrap) : Option (List Value) :=
  match data.ctx with
  | none => some []
  | some ctx => some (V8.GetPropertyNames h ctx.sandbox)

/-- `ContextWrap::GlobalPropertyNamedAccessCheck`. -/
def GlobalPropertyNamedAccessCheck (_host : Nat) (_key : Value) (_data : Value) : Bool := true

/-- `ContextWrap::GlobalPropertyIndexedAccessCheck`. -/
def GlobalPropertyIndexedAccessCheck (_host : Nat) (_key : Nat) (_data : Value) : Bool := true

end ContextWrap

/-! ## The world of allocated resources and the entry points -/

/-- Compiled code as the engine hands it back (`Nan::BoundScript`, `Nan::UnboundScript`);
its content belongs to the engine. -/
structure Script where
  source : String
  origin : Option String
  deriving DecidableEq, Repr

/-- The `class ContextifyScript`: `script` is the persistent handle to the compiled code,
`none` while it is empty.  `handle` is `ObjectWrap::handle_`. -/
structure ContextifyScript where
  handle : Nat
  script : Option Script
  deriving DecidableEq, Repr

/-- Everything the add-on can allocate: heap objects, v8 contexts (counted) and the
instances of its three C++ classes. -/
structure World where
  heap : Heap
  contexts : Nat
  contextifyContexts : List ContextifyContext
  contextWraps : List ContextWrap
  contextifyScripts : List ContextifyScript
  deriving DecidableEq, Repr

/-- The script engine, an external collaborator: value conversion, compilation, execution
and the initial content of the global object of a fresh context.  An `Except.error` carries
the exception value the engine left pending. -/
structure Engine where
  ToString : Value → Except Value String
  CompileScript : String → Option String → Except Value Script
  RunScript : World → Nat → Script → Except Value Value × World
  NewGlobal : String → JSObject

/-- What a native method leaves behind for its caller. -/
inductive Exception where
  | Error (message : String)
  | TypeError (message : String)
  | ReThrow (exception : Value)
  deriving DecidableEq, Repr

/-- The two exceptions the add-on raises itself for a misused entry point (the
`InvalidArgument` of the specification); an exception passed on from the engine is not
one. -/
def Exception.isInvalidArgument : Exception → Bool
  | Exception.Error _ => true
  | Exception.TypeError _ => true
  | Exception.ReThrow _ => false

/-- Completion of a native method: the value in the return slot, a pending exception, a
failed `ObjectWrap::Unwrap` (the object wraps no instance, which the C++ code does not
guard against), or a call made through an empty handle, which ends the process. -/
inductive Outcome where
  | returned (value : Value)
  | thrown (exception : Exception)
  | unwrapFailed
  | emptyHandle
  deriving DecidableEq, Repr

/-- The `Nan::FunctionCallbackInfo` of a call: receiver, holder and arguments. -/
structure FunctionCallbackInfo where
  This : Nat
  Holder : Nat
  args : List Value
  deriving DecidableEq, Repr

namespace FunctionCallbackInfo

/-- `info.Length()`. -/
def Length (info : FunctionCallbackInfo) : Nat := info.args.length

/-- `info[i]`: the argument, `undefined` past the end. -/
def get (info : FunctionCallbackInfo) (i : Nat) : Value := info.args.getD i Value.undefined

end FunctionCallbackInfo

/-- `Value::IsObject()`. -/
def Value.IsObject : Value → Bool
  | Value.object _ => true
  | _ => false

/-- `Value::IsString()`. -/
def Value.IsString : Value → Bool
  | Value.string _ => true
  | _ => false

/-- The instance `NewInstance()` of `ContextWrap::constructor` creates: an empty object
carrying one internal field. -/
def wrapperObject : JSObject :=
  ⟨[], none, true, some Template.functionTemplate, "Object", false⟩

/-- `ContextWrap::createV8Context` for the `ContextifyContext` wrapped in `jsContextify`
whose sandbox handle is `sandbox`.  Allocates the wrapper object and the `ContextWrap`,
reads the constructor name of the sandbox for the class name of the global template, and
allocates the context with its global object.  Returns the context, its global object and
the world.  The `ctx` pointer of the new `ContextWrap` designates the `ContextifyContext`
under construction, recorded here as it stands once `ContextifyContext::Wrap` has
returned. -/
def ContextWrap.createV8Context (E : Engine) (w : World) (jsContextify sandbox : Nat) :
    Nat × Nat × World :=
  let wrapper := w.heap.length
  let heap1 := w.heap ++ [wrapperObject]
  let className := V8.GetConstructorName heap1 sandbox
  let otmpl := { E.NewGlobal className with tmpl := some (Template.ftmpl className) }
  let lcontext := w.contexts
  let global := heap1.length
  let heap2 := heap1 ++ [otmpl]
  let contextWrapper : ContextWrap := ⟨wrapper, some ⟨jsContextify, lcontext, sandbox, global⟩⟩
  (lcontext, global,
    { w with heap := heap2, contexts := w.contexts + 1,
             contextWraps := w.contextWraps ++ [contextWrapper] })

namespace ContextifyContext

/-- `ContextifyContext::Wrap` applied to the instance the constructor
`ContextifyContext(sbox)` has just built: it wraps `handle`, creates the v8 context and
resets `context` and `proxyGlobal`. -/
def Wrap (E : Engine) (w : World) (sbox handle : Nat) : World :=
  let r := ContextWrap.createV8Context E w handle sbox
  let w1 := r.2.2
  { w1 with contextifyContexts := w1.contextifyContexts ++ [⟨handle, r.1, sbox, r.2.1⟩] }

/-- `ContextifyContext::New`, the constructor callback. -/
def New (E : Engine) (w : World) (info : FunctionCallbackInfo) : Outcome × World :=
  if info.Length < 1 then
    (Outcome.thrown (Exception.Error
      "Wrong number of arguments passed to ContextifyContext constructor"), w)
  else
    match info.get 0 with
    | Value.object sbox => (Outcome.returned (Value.object info.This), Wrap E w sbox info.This)
    | _ =>
      (Outcome.thrown (Exception.TypeError
        "Argument to ContextifyContext constructor must be an object."), w)

/-- `ObjectWrap::Unwrap<ContextifyContext>`: the instance the internal field of the object
points to.  `ObjectWrap::Wrap` overwrites that field, so it is the instance wrapped last. -/
def Unwrap (w : World) (handle : Nat) : Option ContextifyContext :=
  (w.contextifyContexts.filter (fun c => c.handle == handle)).getLast?

/-- `ContextifyContext::InstanceOf` on a non-empty handle: whether the value is an object
instantiated from `jsTmpl`. -/
def InstanceOf (w : World) (value : Value) : Bool :=
  match value with
  | Value.object id =>
    match w.heap[id]? with
    | some o => o.tmpl == some Template.jsTmpl
    | none => false
  | _ => false

/-- `Value::ToObject()`: an object converts to itself; `undefined` and `null` do not
convert and give the empty handle (`none`); any other primitive converts to a fresh wrapper
object, which no template of the add-on has instantiated.  That temporary is not recorded
in the heap and is represented by the primitive itself. -/
def ToObject (value : Value) : Option Value :=
  match value with
  | Value.undefined => none
  | Value.null => none
  | v => some v

/-- The common tail of `ContextifyContext::Run` and `ContextifyScript::RunInContext` after
`Nan::RunScript`: an empty result rethrows the caught exception, any other result is
returned. -/
def completion (r : Except Value Value × World) : Outcome × World :=
  match r with
  | (Except.error e, w1) => (Outcome.thrown (Exception.ReThrow e), w1)
  | (Except.ok result, w1) => (Outcome.returned result, w1)

/-- The script origin `ContextifyContext::Run` compiles with: the second argument when
there is one and it is a string (`info.Length() > 1 && info[1]->IsString()`). -/
def origin (info : FunctionCallbackInfo) : Option String :=
  if info.Length > 1 then
    match info.get 1 with
    | Value.string name => some name
    | _ => none
  else none

/-- `ContextifyContext::Run`. -/
def Run (E : Engine) (w : World) (info : FunctionCallbackInfo) : Outcome × World :=
  if info.Length == 0 then
    (Outcome.thrown (Exception.Error "Must supply at least 1 argument to run"), w)
  else
    match info.get 0 with
    | Value.string code =>
      match Unwrap w info.This with
      | none => (Outcome.unwrapFailed, w)
      | some ctx =>
        match E.CompileScript code (origin info) with
        | Except.error e => (Outcome.thrown (Exception.ReThrow e), w)
        | Except.ok script => completion (E.RunScript w ctx.context script)
    | _ => (Outcome.thrown (Exception.TypeError "First argument to run must be a String."), w)

/-- `ContextifyContext::GetGlobal`. -/
def GetGlobal (w : World) (info : FunctionCallbackInfo) : Outcome × World :=
  match Unwrap w info.This with
  | none => (Outcome.unwrapFailed, w)
  | some ctx => (Outcome.returned (Value.object ctx.proxyGlobal), w)

end ContextifyContext

namespace ContextifyScript

/-- `ObjectWrap::Unwrap<ContextifyScript>`: the instance the internal field of the object
points to.  `ObjectWrap::Wrap` overwrites that field, so it is the instance wrapped last. -/
def Unwrap (w : World) (handle : Nat) : Option ContextifyScript :=
  (w.contextifyScripts.filter (fun c => c.handle == handle)).getLast?

/-- The `script.Reset(v8_script)` of `ContextifyScript::New`: store the compiled code in
the instance the constructor has just created, the last one of the table. -/
def Reset (w : World) (script : Script) : World :=
  { w with contextifyScripts :=
      match w.contextifyScripts.getLast? with
      | some c => w.contextifyScripts.dropLast ++ [⟨c.handle, some script⟩]
      | none => [] }

/-- `ContextifyScript::New`, the constructor callback.  The instance is created and wrapped
in `info.Holder()` first; the argument count is checked after that.  The code argument is
converted to a string without a check: when the conversion fails the handle is empty, and
compiling it ends the process. -/
def New (E : Engine) (w : World) (info : FunctionCallbackInfo) : Outcome × World :=
  let w1 := { w with contextifyScripts := w.contextifyScripts ++ [⟨info.Holder, none⟩] }
  if info.Length < 1 then
    (Outcome.thrown (Exception.TypeError "needs at least 'code' argument."), w1)
  else
    let code := E.ToString (info.get 0)
    let filename :=
      if info.Length > 1 then E.ToString (info.get 1)
      else Except.ok "ContextifyScript.<anonymous>"
    match filename with
    | Except.error e => (Outcome.thrown (Exception.ReThrow e), w1)
    | Except.ok name =>
      match code with
      | Except.error _ => (Outcome.emptyHandle, w1)
      | Except.ok source =>
        match E.CompileScript source (some name) with
        | Except.error e => (Outcome.thrown (Exception.ReThrow e), w1)
        | Except.ok v8_script =>
          (Outcome.returned (Value.object info.This), Reset w1 v8_script)

/-- `ContextifyScript::RunInContext`.  The argument goes through `ToObject()` before
`InstanceOf`: for `undefined` and `null` the handle is empty and the instance test on it
ends the process.  With an empty `script` handle nothing has been caught, so `ReThrow`
yields an empty handle and the method returns `undefined`. -/
def RunInContext (E : Engine) (w : World) (info : FunctionCallbackInfo) : Outcome × World :=
  if info.Length == 0 then
    (Outcome.thrown (Exception.Error "Must supply at least 1 argument to runInContext"), w)
  else
    match ContextifyContext.ToObject (info.get 0) with
    | none => (Outcome.emptyHandle, w)
    | some object =>
      if !ContextifyContext.InstanceOf w object then
        (Outcome.thrown (Exception.TypeError "First argument must be a ContextifyContext."), w)
      else
        match object with
        | Value.object id =>
          match ContextifyContext.Unwrap w id, Unwrap w info.This with
          | some ctx, some wrapped_script =>
            match wrapped_script.script with
            | none => (Outcome.returned Value.undefined, w)
            | some script => ContextifyContext.completion (E.RunScript w ctx.context script)
          | _, _ => (Outcome.unwrapFailed, w)
        | _ => (Outcome.unwrapFailed, w)

end ContextifyScript

/-! ## Sample worlds used by the concrete checks -/

/-- A plain object with the given properties and prototype. -/
def plainObject (properties : List Property) (prototype : Option Nat) : JSObject :=
  ⟨properties, prototype, true, none, "Object", false⟩

/-- A property with attributes `None`. -/
def plainProperty (name : String) (value : Value) : Property :=
  ⟨name, value, PropertyAttribute.None⟩

/-- An instance of `jsTmpl`, the object a `ContextifyContext` is wrapped in. -/
def hostObject : JSObject :=
  ⟨[], none, true, some Template.jsTmpl, "ContextifyContext", false⟩

/-- An empty global object of a context whose template carries the class name `Object`. -/
def globalObject : JSObject :=
  ⟨[], none, true, some (Template.ftmpl "Object"), "Object", false⟩

/-- Heap of two contexts.  Handle 0: a base object holding `y = 7`.  Handle 1: a sandbox
holding `x = 1` that inherits from the base object.  Handles 2 and 3: the global objects of
the two contexts.  Handles 4 and 5: host object and wrapper of the context over the
sandbox 1.  Handles 6 and 7: host object and wrapper of the context over the sandbox 0. -/
def inheritHeap : Heap :=
  [plainObject [plainProperty "y" (Value.number 7)] none,
   plainObject [plainProperty "x" (Value.number 1)] (some 0),
   globalObject, globalObject,
   hostObject, wrapperObject, hostObject, wrapperObject]

/-- A live context over `inheritHeap`: sandbox 1, global object 2. -/
def inheritCtx : ContextifyContext := ⟨4, 0, 1, 2⟩

/-- The `ContextWrap` of `inheritCtx`, live. -/
def inheritWrap : ContextWrap := ⟨5, some inheritCtx⟩

/-- A second live context over `inheritHeap`, whose sandbox is the base object (handle 0)
that the sandbox of `inheritCtx` inherits from; its global object is handle 3. -/
def baseCtx : ContextifyContext := ⟨6, 1, 0, 3⟩

/-- The `ContextWrap` of `baseCtx`, live. -/
def baseWrap : ContextWrap := ⟨7, some baseCtx⟩

/-- A sandbox holding `a = 1` and a `DontDelete` property `k = 2` (handle 0), the global
object of its context (handle 1), the host object (handle 2) and the wrapper (handle 3). -/
def pinnedHeap : Heap :=
  [plainObject [plainProperty "a" (Value.number 1),
                ⟨"k", Value.number 2, ⟨false, false, true⟩⟩] none,
   globalObject, hostObject, wrapperObject]

/-- The live `ContextWrap` of the context over `pinnedHeap`: sandbox 0, global object 1. -/
def pinnedWrap : ContextWrap := ⟨3, some ⟨2, 0, 0, 1⟩⟩

/-- A sandbox without prototype whose properties were added in the order `b`, `2`, `a`, `1`
(handle 0), the global object of its context (handle 1), the host object (handle 2) and the
wrapper (handle 3). -/
def mixedHeap : Heap :=
  [plainObject [plainProperty "b" (Value.number 10), plainProperty "2" (Value.number 20),
                plainProperty "a" (Value.number 30), plainProperty "1" (Value.number 40)] none,
   globalObject, hostObject, wrapperObject]

/-- The live `ContextWrap` of the context over `mixedHeap`: sandbox 0, global object 1. -/
def mixedWrap : ContextWrap := ⟨3, some ⟨2, 0, 0, 1⟩⟩

/-- An engine with fixed answers, for the concrete checks: every value converts to the
string `s`, every compilation succeeds, every run returns `undefined` and changes
nothing, and a fresh global object is empty. -/
def sampleEngine : Engine :=
  ⟨fun _ => Except.ok "s",
   fun code origin => Except.ok ⟨code, origin⟩,
   fun w _ _ => (Except.ok Value.undefined, w),
   fun name => ⟨[], none, true, none, name, false⟩⟩

/-- The world of the two contexts over `inheritHeap`, extended at handle 8 with a fresh
instance of `jsTmpl`: the receiver of a further constructor call. -/
def sampleWorld : World :=
  ⟨inheritHeap ++ [hostObject], 2, [inheritCtx, baseCtx], [inheritWrap, baseWrap], []⟩

/-! ## Lemmas on the object model -/

namespace V8

theorem prototypeChain_of_get {h : Heap} {id : Nat} {o : JSObject} (ho : h[id]? = some o) :
    ∃ rest, prototypeChain h.length h id = (id, o) :: rest := by
  have hlt : id < h.length := (List.getElem?_eq_some.mp ho).1
  obtain ⟨n, hn⟩ : ∃ n, h.length = n + 1 := ⟨h.length - 1, by omega⟩
  rw [hn]
  simp only [prototypeChain, ho]
  exact ⟨_, rfl⟩

theorem prototypeChain_of_none {h : Heap} {id : Nat} (ho : h[id]? = none) (fuel : Nat) :
    prototypeChain fuel h id = [] := by
  cases fuel with
  | zero => rfl
  | succ n => simp [prototypeChain, ho]

theorem prototypeChain_ids_lt (fuel : Nat) (h : Heap) (id : Nat) :
    ∀ e ∈ prototypeChain fuel h id, e.1 < h.length := by
  induction fuel generalizing id with
  | zero => simp [prototypeChain]
  | succ n ih =>
    intro e he
    cases ho : h[id]? with
    | none => simp [prototypeChain, ho] at he
    | some o =>
      have hlt : id < h.length := (List.getElem?_eq_some.mp ho).1
      cases hp : o.prototype with
      | none =>
        simp only [prototypeChain, ho, hp, List.mem_singleton] at he
        subst he
        exact hlt
      | some q =>
        simp only [prototypeChain, ho, hp, List.mem_cons] at he
        rcases he with he | he
        · subst he
          exact hlt
        · exact ih q e he

theorem prototypeChain_stable (h : Heap) (m n id : Nat) (hmn : m ≤ n)
    (hlen : (prototypeChain n h id).length ≤ m) :
    prototypeChain m h id = prototypeChain n h id := by
  induction m generalizing n id with
  | zero =>
    have : prototypeChain n h id = [] := List.length_eq_zero.mp (by omega)
    rw [this]
    rfl
  | succ k ih =>
    obtain ⟨n2, rfl⟩ : ∃ n2, n = n2 + 1 := ⟨n - 1, by omega⟩
    cases ho : h[id]? with
    | none => simp [prototypeChain, ho]
    | some o =>
      cases hp : o.prototype with
      | none => simp [prototypeChain, ho, hp]
      | some q =>
        simp only [prototypeChain, ho, hp, List.length_cons] at hlen
        simp only [prototypeChain, ho, hp]
        rw [ih n2 q (by omega) (by omega)]

/-- The heap size is enough fuel: a walk with any larger fuel that meets no object twice
(an acyclic prototype chain) finds the same chain as the walk the API functions make. -/
theorem prototypeChain_fuel (h : Heap) (id n : Nat) (hn : h.length ≤ n)
    (hnodup : ((prototypeChain n h id).map Prod.fst).Nodup) :
    prototypeChain h.length h id = prototypeChain n h id := by
  apply prototypeChain_stable h h.length n id hn
  have hsub : (prototypeChain n h id).map Prod.fst ⊆ List.range h.length := by
    intro x hx
    obtain ⟨e, he, rfl⟩ := List.mem_map.mp hx
    exact List.mem_range.mpr (prototypeChain_ids_lt n h id e he)
  have hle := (List.subperm_of_subset hnodup hsub).length_le
  simpa using hle

end V8

/-! ## The interceptors of a proxy whose back-reference is cleared -/

open ContextWrap

/-- C2, as stated, fails: writing the number 5 through the cleared proxy does not put the
written value in the return slot. -/
theorem cleared_setter_not_value :
    ¬ ((GlobalPropertySetter inheritHeap (weakCallback inheritWrap) "x" (Value.number 5)).1
        = some (Value.number 5)) := by
  simp [GlobalPropertySetter, weakCallback]

/-- C2, amended: on a proxy whose back-reference is cleared, for every name and value the
Set interceptor leaves the heap (every Sandbox Descriptor) unchanged and fills its return
slot with `undefined`, a non-empty result, so the write counts as intercepted. -/
theorem cleared_setter (data : ContextWrap) (hdata : data.ctx = none)
    (h : Heap) (property : String) (value : Value) :
    GlobalPropertySetter h data property value = (some Value.undefined, h) := by
  simp [GlobalPropertySetter, hdata]

/-- Witness of `cleared_setter`: writing `x = 5` through the cleared proxy of
`inheritCtx`. -/
theorem cleared_setter_witness :
    (weakCallback inheritWrap).ctx = none
    ∧ GlobalPropertySetter inheritHeap (weakCallback inheritWrap) "x" (Value.number 5)
        = (some Value.undefined, inheritHeap) :=
  ⟨rfl, cleared_setter (weakCallback inheritWrap) rfl inheritHeap "x" (Value.number 5)⟩

/-! ## Get and Query on a live context -/

namespace V8

theorem SetPrototype_length (h : Heap) (self : Nat) (value : Value) :
    (SetPrototype h self value).length = h.length := by
  unfold SetPrototype
  split
  · rfl
  · split
    · split <;> simp
    · split <;> simp
    · rfl

theorem SetPrototype_frame (h : Heap) (self : Nat) (value : Value) (i : Nat)
    (hi : i ≠ self) : (SetPrototype h self value)[i]? = h[i]? := by
  unfold SetPrototype
  split
  · rfl
  · split
    · split
      · exact List.getElem?_set_ne (Ne.symm hi)
      · rfl
    · split
      · exact List.getElem?_set_ne (Ne.symm hi)
      · rfl
    · rfl

theorem Set_length (h : Heap) (self : Nat) (key : String) (value : Value) :
    (Set h self key value).length = h.length := by
  unfold Set
  split
  · rfl
  · split
    · exact SetPrototype_length h self value
    · split <;> simp

theorem Set_frame (h : Heap) (self : Nat) (key : String) (value : Value) (i : Nat)
    (hi : i ≠ self) : (Set h self key value)[i]? = h[i]? := by
  unfold Set
  split
  · rfl
  · split
    · exact SetPrototype_frame h self value i hi
    · split
      · exact List.getElem?_set_ne (Ne.symm hi)
      · rfl

end V8

namespace V8

theorem ownProperty_remove_self (o : JSObject) (key : String) :
    ownProperty (remove o key) key = none := by
  simp [ownProperty, remove, List.find?_eq_none]

theorem ownProperty_remove_other (o : JSObject) (key k : String) (hk : k ≠ key) :
    ownProperty (remove o key) k = ownProperty o k := by
  unfold ownProperty remove
  simp only
  induction o.properties with
  | nil => rfl
  | cons a l ih =>
    by_cases ha : a.name = key
    · have hb1 : (a.name == key) = true := by simp [ha]
      have hb2 : (a.name == k) = false := by
        simp only [beq_eq_false_iff_ne]
        exact fun e => hk (e.symm.trans ha)
      rw [List.filter_cons, List.find?_cons]
      simp only [hb1, hb2, Bool.not_true, Bool.false_eq_true, if_false]
      exact ih
    · have hb1 : (a.name == key) = false := by simp [ha]
      rw [List.filter_cons]
      simp only [hb1, Bool.not_false, if_true]
      rw [List.find?_cons, List.find?_cons, ih]

theorem Delete_length (h : Heap) (self : Nat) (key : String) :
    (Delete h self key).2.length = h.length := by
  unfold Delete
  split
  · rfl
  · split
    · rfl
    · split <;> simp

theorem Delete_frame (h : Heap) (self : Nat) (key : String) (i : Nat) (hi : i ≠ self) :
    (Delete h self key).2[i]? = h[i]? := by
  unfold Delete
  split
  · rfl
  · split
    · rfl
    · split
      · rfl
      · exact List.getElem?_set_ne (Ne.symm hi)

theorem orderNames_perm (l : List String) : (orderNames l).Perm l := by
  unfold orderNames
  exact ((List.perm_insertionSort _ _).append_right _).trans (List.filter_append_perm _ l)

theorem mem_orderNames (l : List String) (n : String) : n ∈ orderNames l ↔ n ∈ l :=
  (orderNames_perm l).mem_iff

theorem orderNames_sorted (l : List String) :
    ∃ indices, orderNames l = indices ++ l.filter (fun n => !(arrayIndex n).isSome)
      ∧ indices.Perm (l.filter (fun n => (arrayIndex n).isSome))
      ∧ indices.Sorted (fun a b => indexOf a ≤ indexOf b) := by
  haveI : IsTotal String (fun a b => indexOf a ≤ indexOf b) :=
    ⟨fun a b => Nat.le_total (indexOf a) (indexOf b)⟩
  haveI : IsTrans String (fun a b => indexOf a ≤ indexOf b) :=
    ⟨fun _ _ _ hab hbc => Nat.le_trans hab hbc⟩
  exact ⟨_, rfl, List.perm_insertionSort _ _, List.sorted_insertionSort _ _⟩

theorem orderNames_of_no_index (l : List String) (hl : ∀ n ∈ l, arrayIndex n = none) :
    orderNames l = l := by
  have h1 : l.filter (fun n => (arrayIndex n).isSome) = [] :=
    List.filter_eq_nil_iff.mpr (fun n hn => by simp [hl n hn])
  have h2 : l.filter (fun n => !(arrayIndex n).isSome) = l :=
    List.filter_eq_self.mpr (fun n hn => by simp [hl n hn])
  rw [orderNames, h1, h2]
  rfl

theorem map_keyValue_of_no_index (l : List String) (hl : ∀ n ∈ l, arrayIndex n = none) :
    l.map keyValue = l.map Value.string := by
  apply List.map_congr_left
  intro n hn
  simp [keyValue, hl n hn]

theorem collectNames_mem (objs : List JSObject) (seen : List String) (n : String)
    (hn : n ∈ collectNames objs seen) :
    n ∉ seen ∧ ∃ pre e post, objs = pre ++ e :: post ∧ n ∈ enumerableNames e
      ∧ ∀ x ∈ pre, n ∉ ownNames x := by
  induction objs generalizing seen with
  | nil => simp [collectNames] at hn
  | cons o rest ih =>
    simp only [collectNames, List.mem_append, mem_orderNames, List.mem_filter] at hn
    rcases hn with ⟨hin, hseen⟩ | hrest
    · exact ⟨by simpa using hseen, [], o, rest, rfl, hin, by simp⟩
    · obtain ⟨hns, pre, e, post, hsplit, hin, hpre⟩ := ih _ hrest
      refine ⟨fun hx => hns (List.mem_append_left _ hx), o :: pre, e, post, by simp [hsplit],
        hin, ?_⟩
      intro x hx
      rcases List.mem_cons.mp hx with rfl | hx
      · exact fun hown => hns (List.mem_append_right _ hown)
      · exact hpre x hx

theorem collectNames_complete (pre : List JSObject) (e : JSObject) (post : List JSObject)
    (seen : List String) (n : String) (hn : n ∈ enumerableNames e) (hseen : n ∉ seen)
    (hpre : ∀ x ∈ pre, n ∉ ownNames x) : n ∈ collectNames (pre ++ e :: post) seen := by
  induction pre generalizing seen with
  | nil =>
    simp only [List.nil_append, collectNames, List.mem_append, mem_orderNames,
      List.mem_filter]
    exact Or.inl ⟨hn, by simpa using hseen⟩
  | cons x pre ih =>
    simp only [List.cons_append, collectNames, List.mem_append]
    refine Or.inr (ih _ ?_ (fun y hy => hpre y (List.mem_cons_of_mem _ hy)))
    intro hx
    rcases List.mem_append.mp hx with hx | hx
    · exact hseen hx
    · exact hpre x (List.mem_cons_self _ _) hx

theorem enumerableNames_sublist (o : JSObject) : (enumerableNames o).Sublist (ownNames o) := by
  unfold enumerableNames ownNames
  exact (List.filter_sublist _).map _

theorem collectNames_nodup (objs : List JSObject) (seen : List String)
    (hobjs : ∀ o ∈ objs, (ownNames o).Nodup) : (collectNames objs seen).Nodup := by
  induction objs generalizing seen with
  | nil => simp [collectNames]
  | cons o rest ih =>
    simp only [collectNames]
    refine List.Nodup.append ?_ (ih _ (fun x hx => hobjs x (List.mem_cons_of_mem _ hx))) ?_
    · refine (orderNames_perm _).nodup_iff.mpr ?_
      exact ((hobjs o (List.mem_cons_self _ _)).sublist (enumerableNames_sublist o)).sublist
        (List.filter_sublist _)
    · intro n h1 h2
      have hown : n ∈ ownNames o := by
        have := (mem_orderNames _ n).mp h1
        exact (enumerableNames_sublist o).subset (List.mem_of_mem_filter this)
      exact (collectNames_mem rest _ n h2).1 (List.mem_append_right _ hown)

theorem collectNames_eq_spec (objs : List JSObject) (nearer : List JSObject)
    (seen : List String) (hseen : ∀ n, n ∈ seen ↔ ∃ x ∈ nearer, n ∈ ownNames x) :
    collectNames objs seen
      = ((objs.inits.map (fun q => nearer ++ q)).zip objs).flatMap
          (fun pe => visibleNames pe.1 pe.2) := by
  induction objs generalizing nearer seen with
  | nil => simp [collectNames]
  | cons e post ih =>
    have hfilter : (enumerableNames e).filter (fun n => !seen.contains n)
        = (enumerableNames e).filter
            (fun n => nearer.all (fun x => !(ownNames x).contains n)) := by
      apply List.filter_congr
      intro n _
      rw [Bool.eq_iff_iff]
      simp only [Bool.not_eq_true', List.all_eq_true]
      constructor
      · intro hn x hx
        have h1 : ¬ n ∈ seen := by simpa using hn
        have h2 : ¬ n ∈ ownNames x := fun hm => h1 ((hseen n).mpr ⟨x, hx, hm⟩)
        simpa using h2
      · intro hn
        have h1 : ¬ n ∈ seen := by
          intro hm
          obtain ⟨x, hx, hown⟩ := (hseen n).mp hm
          have := hn x hx
          simp [hown] at this
        simpa using h1
    have hseen2 : ∀ n, n ∈ seen ++ ownNames e ↔ ∃ x ∈ nearer ++ [e], n ∈ ownNames x := by
      intro n
      simp only [List.mem_append, List.mem_singleton, hseen n]
      constructor
      · rintro (⟨x, hx, hn⟩ | hn)
        · exact ⟨x, Or.inl hx, hn⟩
        · exact ⟨e, Or.inr rfl, hn⟩
      · rintro ⟨x, hx | rfl, hn⟩
        · exact Or.inl ⟨x, hx, hn⟩
        · exact Or.inr hn
    have hmap : (List.map (fun t => e :: t) post.inits).map (fun q => nearer ++ q)
        = post.inits.map (fun q => (nearer ++ [e]) ++ q) := by
      simp [List.map_map, Function.comp_def]
    rw [collectNames, ih (nearer ++ [e]) (seen ++ ownNames e) hseen2, List.inits_cons,
      List.map_cons, hmap, List.zip_cons_cons, List.flatMap_cons, hfilter]
    simp [visibleNames]

theorem collectNames_eq_forInNames (objs : List JSObject) :
    collectNames objs [] = forInNames objs := by
  have := collectNames_eq_spec objs [] [] (by simp)
  simpa [forInNames] using this

theorem collectNames_first (o : JSObject) (rest : List JSObject) :
    collectNames (o :: rest) [] = orderNames (enumerableNames o)
      ++ collectNames rest (ownNames o) := by
  simp [collectNames]

theorem enumerableNames_all (o : JSObject)
    (hall : ∀ p ∈ o.properties, p.attributes.DontEnum = false) :
    enumerableNames o = ownNames o := by
  unfold enumerableNames ownNames
  congr 1
  exact List.filter_eq_self.mpr (fun p hp => by simp [hall p hp])

end V8

/-- C6, as stated, fails: deleting `z`, which is not a property of the sandbox of
`inheritCtx`, leaves the heap unchanged but reports `true`, not the failure indicator
`false`; and deleting the own property `k` of the sandbox of `pinnedHeap`, which is marked
`DontDelete`, does not remove it. -/
theorem deleter_absent_reports_true :
    V8.GetRealNamedProperty inheritHeap inheritCtx.sandbox "z" = none
    ∧ GlobalPropertyDeleter inheritHeap inheritWrap "z" = (some true, inheritHeap)
    ∧ GlobalPropertyDeleter pinnedHeap pinnedWrap "k" = (some false, pinnedHeap) := by
  refine ⟨by decide, by decide, by decide⟩

/-- C6, amended: for a live context whose Sandbox Descriptor is the object `o`, and every
name: if `name` is an own property of `o` not marked `DontDelete`, the Delete interceptor
removes it, leaves every other property of `o` as it was and returns `true`; if it is an
own property marked `DontDelete`, the heap is unchanged and `false` is returned; if `name`
is not an own property of `o`, the heap is unchanged and `true` is returned.  No case
raises. -/
theorem deleter_live (h : Heap) (data : ContextWrap) (ctx : ContextifyContext)
    (hctx : data.ctx = some ctx) (o : JSObject) (ho : h[ctx.sandbox]? = some o)
    (property : String) :
    (∀ p, V8.ownProperty o property = some p → p.attributes.DontDelete = false →
        (GlobalPropertyDeleter h data property).1 = some true
        ∧ ∃ o2, (GlobalPropertyDeleter h data property).2[ctx.sandbox]? = some o2
            ∧ o2.properties = o.properties.filter (fun q => !(q.name == property))
            ∧ V8.ownProperty o2 property = none
            ∧ ∀ k, k ≠ property → V8.ownProperty o2 k = V8.ownProperty o k)
    ∧ (∀ p, V8.ownProperty o property = some p → p.attributes.DontDelete = true →
        GlobalPropertyDeleter h data property = (some false, h))
    ∧ (V8.ownProperty o property = none →
        GlobalPropertyDeleter h data property = (some true, h)) := by
  have hlt : ctx.sandbox < h.length := (List.getElem?_eq_some.mp ho).1
  refine ⟨?_, ?_, ?_⟩
  · intro p hp hd
    have hdel : GlobalPropertyDeleter h data property
        = (some true, h.set ctx.sandbox (V8.remove o property)) := by
      simp [GlobalPropertyDeleter, hctx, V8.Delete, ho, hp, hd]
    rw [hdel]
    refine ⟨rfl, V8.remove o property, ?_, rfl, V8.ownProperty_remove_self o property,
      fun k hk => V8.ownProperty_remove_other o property k hk⟩
    simp [hlt]
  · intro p hp hd
    simp [GlobalPropertyDeleter, hctx, V8.Delete, ho, hp, hd]
  · intro hp
    simp [GlobalPropertyDeleter, hctx, V8.Delete, ho, hp]

/-- Witness of `deleter_live` on `inheritCtx`: deleting the own property `x` succeeds and
`x` is gone from the sandbox afterwards. -/
theorem deleter_live_witness :
    inheritWrap.ctx = some inheritCtx
    ∧ inheritHeap[inheritCtx.sandbox]?
        = some (plainObject [plainProperty "x" (Value.number 1)] (some 0))
    ∧ (GlobalPropertyDeleter inheritHeap inheritWrap "x").1 = some true :=
  ⟨rfl, by decide,
    ((deleter_live inheritHeap inheritWrap inheritCtx rfl
      (plainObject [plainProperty "x" (Value.number 1)] (some 0)) (by decide) "x").1
      (plainProperty "x" (Value.number 1)) (by decide) (by decide)).1⟩

/-- C7, as stated, fails twice over.  Enumerating through `inheritCtx` lists `y`, which is
not an own property of the sandbox but an enumerable property of its prototype.  And the
sandbox of `mixedHeap`, whose properties were added in the order `b`, `2`, `a`, `1`, is
enumerated as 1, 2, `b`, `a`: the element indices come first, ascending and as numbers,
not in insertion order. -/
theorem enumerator_lists_inherited :
    GlobalPropertyEnumerator inheritHeap inheritWrap
        = some [Value.string "x", Value.string "y"]
    ∧ inheritHeap[inheritCtx.sandbox]?.bind (fun o => V8.ownProperty o "y") = none
    ∧ mixedHeap[0]?.map V8.ownNames = some ["b", "2", "a", "1"]
    ∧ GlobalPropertyEnumerator mixedHeap mixedWrap
        = some [Value.number 1, Value.number 2, Value.string "b", Value.string "a"] := by
  refine ⟨by decide, by decide, by decide, by decide⟩

/-- C7, amended: for a live context whose Sandbox Descriptor is the object `o`, the
Enumerate interceptor returns an array of keys, a number for a name that is an array index
and a string for any other name.  The keys are those of the list `names` below.  It starts
with the enumerable own names of `o` in the key order of v8: the array indices first, in
ascending order, then the other names in insertion order.  It continues, for each further
object on the prototype chain of `o` in turn, with the enumerable own names of that object
in the same key order, leaving out every name that a nearer object of the chain has as an
own name (`forInNames`).  A name is listed exactly when some object of the chain has it as
an enumerable own name and no nearer object has it as an own name, and no name is listed
twice when no object of the chain has two properties of one name.  When `o` has no
prototype nothing follows its own names; when in addition no property of `o` is marked
`DontEnum` or named by an array index, the result is exactly the own names of `o` in
insertion order.  The global object of the proxy is not consulted and the interceptor has
no effect on the heap. -/
theorem enumerator_live (h : Heap) (data : ContextWrap) (ctx : ContextifyContext)
    (hctx : data.ctx = some ctx) (o : JSObject) (ho : h[ctx.sandbox]? = some o) :
    ∃ inherited : List String,
      GlobalPropertyEnumerator h data
        = some ((V8.orderNames (V8.enumerableNames o) ++ inherited).map V8.keyValue)
      ∧ V8.orderNames (V8.enumerableNames o) ++ inherited
          = V8.forInNames ((V8.prototypeChain h.length h ctx.sandbox).map Prod.snd)
      ∧ (∃ indices,
          V8.orderNames (V8.enumerableNames o)
            = indices ++ (V8.enumerableNames o).filter (fun n => !(V8.arrayIndex n).isSome)
          ∧ indices.Perm ((V8.enumerableNames o).filter (fun n => (V8.arrayIndex n).isSome))
          ∧ indices.Sorted (fun a b => V8.indexOf a ≤ V8.indexOf b))
      ∧ (∀ n, n ∈ V8.orderNames (V8.enumerableNames o) ++ inherited ↔
          ∃ pre e post,
            (V8.prototypeChain h.length h ctx.sandbox).map Prod.snd = pre ++ e :: post
            ∧ n ∈ V8.enumerableNames e ∧ ∀ x ∈ pre, n ∉ V8.ownNames x)
      ∧ ((∀ e ∈ V8.prototypeChain h.length h ctx.sandbox, (V8.ownNames e.2).Nodup) →
          (V8.orderNames (V8.enumerableNames o) ++ inherited).Nodup)
      ∧ (o.prototype = none → inherited = [])
      ∧ (o.prototype = none → (∀ p ∈ o.properties, p.attributes.DontEnum = false) →
          (∀ p ∈ o.properties, V8.arrayIndex p.name = none) →
          GlobalPropertyEnumerator h data = some ((V8.ownNames o).map Value.string)) := by
  obtain ⟨rest, hrest⟩ := V8.prototypeChain_of_get ho
  have hall : V8.collectNames ((V8.prototypeChain h.length h ctx.sandbox).map Prod.snd) []
      = V8.orderNames (V8.enumerableNames o)
          ++ V8.collectNames (rest.map Prod.snd) (V8.ownNames o) := by
    rw [hrest, List.map_cons, V8.collectNames_first]
  have he : GlobalPropertyEnumerator h data
      = some ((V8.orderNames (V8.enumerableNames o)
          ++ V8.collectNames (rest.map Prod.snd) (V8.ownNames o)).map V8.keyValue) := by
    rw [← hall]
    simp [GlobalPropertyEnumerator, hctx, V8.GetPropertyNames]
  have hnil : o.prototype = none → rest = [] := by
    intro hp
    have hlt : ctx.sandbox < h.length := (List.getElem?_eq_some.mp ho).1
    obtain ⟨n, hn⟩ : ∃ n, h.length = n + 1 := ⟨h.length - 1, by omega⟩
    rw [hn] at hrest
    simp only [V8.prototypeChain, ho, hp, List.cons.injEq, true_and] at hrest
    exact hrest.symm
  refine ⟨V8.collectNames (rest.map Prod.snd) (V8.ownNames o), he, ?_,
    V8.orderNames_sorted _, ?_, ?_, ?_, ?_⟩
  · rw [← hall]
    exact V8.collectNames_eq_forInNames _
  · intro n
    rw [← hall]
    constructor
    · intro hn
      exact (V8.collectNames_mem _ _ n hn).2
    · rintro ⟨pre, e, post, hsplit, hn, hpre⟩
      rw [hsplit]
      exact V8.collectNames_complete pre e post [] n hn (by simp) hpre
  · intro hnodup
    rw [← hall]
    apply V8.collectNames_nodup
    intro x hx
    obtain ⟨e, he2, rfl⟩ := List.mem_map.mp hx
    exact hnodup e he2
  · intro hp
    simp [hnil hp, V8.collectNames]
  · intro hp hdont hidx
    have hnames : ∀ n ∈ V8.ownNames o, V8.arrayIndex n = none := by
      intro n hn
      obtain ⟨q, hq, rfl⟩ := List.mem_map.mp hn
      exact hidx q hq
    rw [he, hnil hp, V8.enumerableNames_all o hdont]
    simp only [List.map_nil, V8.collectNames, List.append_nil]
    rw [V8.orderNames_of_no_index _ hnames, V8.map_keyValue_of_no_index _ hnames]

/-- Witness of `enumerator_live` on `mixedHeap`, whose sandbox has no prototype and holds
the names `b`, `2`, `a`, `1`: the result starts with the ordered own names. -/
theorem enumerator_live_witness :
    mixedWrap.ctx = some ⟨2, 0, 0, 1⟩
    ∧ mixedHeap[0]? = some (plainObject [plainProperty "b" (Value.number 10),
        plainProperty "2" (Value.number 20), plainProperty "a" (Value.number 30),
        plainProperty "1" (Value.number 40)] none)
    ∧ ∃ inherited, GlobalPropertyEnumerator mixedHeap mixedWrap
        = some ((["1", "2", "b", "a"] ++ inherited).map V8.keyValue) :=
  ⟨rfl, by decide,
    (enumerator_live mixedHeap mixedWrap ⟨2, 0, 0, 1⟩ rfl
      (plainObject [plainProperty "b" (Value.number 10),
        plainProperty "2" (Value.number 20), plainProperty "a" (Value.number 30),
        plainProperty "1" (Value.number 40)] none) (by decide)).imp
      (fun _ hx => hx.1)⟩

/-! ## Two contexts over distinct sandboxes -/

namespace V8

theorem prototypeChain_frame (h h2 : Heap) (s : Nat)
    (hframe : ∀ i, i ≠ s → h2[i]? = h[i]?) (hlen : h2.length = h.length)
    (fuel id : Nat) (hs : s ∉ (prototypeChain fuel h id).map Prod.fst) :
    prototypeChain fuel h2 id = prototypeChain fuel h id := by
  induction fuel generalizing id with
  | zero => rfl
  | succ n ih =>
    by_cases hid : id = s
    · subst hid
      cases ho : h[id]? with
      | none =>
        have h2o : h2[id]? = none := by
          rw [List.getElem?_eq_none_iff] at ho ⊢
          omega
        simp [prototypeChain, ho, h2o]
      | some o => simp [prototypeChain, ho] at hs
    · have hsame := hframe id hid
      cases ho : h[id]? with
      | none => simp [prototypeChain, ho, hsame]
      | some o =>
        rw [ho] at hsame
        cases hp : o.prototype with
        | none => simp [prototypeChain, ho, hsame, hp]
        | some q =>
          have hs2 : s ∉ (prototypeChain n h q).map Prod.fst := by
            intro hx
            apply hs
            simp only [prototypeChain, ho, hp, List.map_cons, List.mem_cons]
            exact Or.inr hx
          simp [prototypeChain, ho, hsame, hp, ih q hs2]

end V8

/-- When two heaps of the same size agree on every object except `s`, and `s` is not on the
prototype chain of the sandbox or of the global object of a context, the Get, Query and
Enumerate interceptors of that context give the same results over both heaps. -/
theorem reads_frame (h h2 : Heap) (s : Nat)
    (hframe : ∀ i, i ≠ s → h2[i]? = h[i]?) (hlen : h2.length = h.length)
    (data : ContextWrap) (ctx : ContextifyContext) (hctx : data.ctx = some ctx)
    (hsb : s ∉ (V8.prototypeChain h.length h ctx.sandbox).map Prod.fst)
    (hgl : s ∉ (V8.prototypeChain h.length h ctx.proxyGlobal).map Prod.fst)
    (property : String) :
    GlobalPropertyGetter h2 data property = GlobalPropertyGetter h data property
    ∧ GlobalPropertyQuery h2 data property = GlobalPropertyQuery h data property
    ∧ GlobalPropertyEnumerator h2 data = GlobalPropertyEnumerator h data := by
  have e1 := V8.prototypeChain_frame h h2 s hframe hlen h.length ctx.sandbox hsb
  have e2 := V8.prototypeChain_frame h h2 s hframe hlen h.length ctx.proxyGlobal hgl
  simp [GlobalPropertyGetter, GlobalPropertyQuery, GlobalPropertyEnumerator, hctx,
    V8.GetRealNamedProperty, V8.GetPropertyNames, hlen, e1, e2]

/-- C8, as stated, fails: the contexts of `baseWrap` and `inheritWrap` have distinct
sandboxes (handles 0 and 1), the second inheriting from the first.  Writing the global
`g = 5` through the first leaves the second sandbox object unchanged, yet Get for `g`
through the second proxy changes from "not found" to 5. -/
theorem write_visible_through_prototype :
    baseCtx.sandbox ≠ inheritCtx.sandbox
    ∧ (GlobalPropertySetter inheritHeap baseWrap "g" (Value.number 5)).2[1]? = inheritHeap[1]?
    ∧ GlobalPropertyGetter inheritHeap inheritWrap "g" = none
    ∧ GlobalPropertyGetter
        (GlobalPropertySetter inheritHeap baseWrap "g" (Value.number 5)).2 inheritWrap "g"
        = some (Value.number 5) := by
  refine ⟨by decide, by decide, by decide, by decide⟩

/-- C8, amended: for live contexts `c1` and `c2` over distinct Sandbox Descriptors, every
name and value, a Set or Delete through the proxy of `c1` changes no heap object other
than the descriptor of `c1`, so the descriptor of `c2` is unchanged; and when the
descriptor of `c1` lies neither on the prototype chain of the descriptor of `c2` nor on
that of the global object of `c2`, the results of Get, Query and Enumerate through the
proxy of `c2` are the same before and after. -/
theorem cross_context_frame (h : Heap) (data1 data2 : ContextWrap) (c1 c2 : ContextifyContext)
    (h1 : data1.ctx = some c1) (h2 : data2.ctx = some c2) (hne : c1.sandbox ≠ c2.sandbox)
    (name : String) (value : Value) :
    (∀ i, i ≠ c1.sandbox → (GlobalPropertySetter h data1 name value).2[i]? = h[i]?)
    ∧ (∀ i, i ≠ c1.sandbox → (GlobalPropertyDeleter h data1 name).2[i]? = h[i]?)
    ∧ (GlobalPropertySetter h data1 name value).2[c2.sandbox]? = h[c2.sandbox]?
    ∧ (GlobalPropertyDeleter h data1 name).2[c2.sandbox]? = h[c2.sandbox]?
    ∧ (c1.sandbox ∉ (V8.prototypeChain h.length h c2.sandbox).map Prod.fst →
       c1.sandbox ∉ (V8.prototypeChain h.length h c2.proxyGlobal).map Prod.fst →
       ∀ property,
        (GlobalPropertyGetter (GlobalPropertySetter h data1 name value).2 data2 property
            = GlobalPropertyGetter h data2 property
          ∧ GlobalPropertyQuery (GlobalPropertySetter h data1 name value).2 data2 property
            = GlobalPropertyQuery h data2 property
          ∧ GlobalPropertyEnumerator (GlobalPropertySetter h data1 name value).2 data2
            = GlobalPropertyEnumerator h data2)
        ∧ (GlobalPropertyGetter (GlobalPropertyDeleter h data1 name).2 data2 property
            = GlobalPropertyGetter h data2 property
          ∧ GlobalPropertyQuery (GlobalPropertyDeleter h data1 name).2 data2 property
            = GlobalPropertyQuery h data2 property
          ∧ GlobalPropertyEnumerator (GlobalPropertyDeleter h data1 name).2 data2
            = GlobalPropertyEnumerator h data2)) := by
  have hs : (GlobalPropertySetter h data1 name value).2 = V8.Set h c1.sandbox name value := by
    simp [GlobalPropertySetter, h1]
  have hd : (GlobalPropertyDeleter h data1 name).2 = (V8.Delete h c1.sandbox name).2 := by
    simp [GlobalPropertyDeleter, h1]
  rw [hs, hd]
  have fs := V8.Set_frame h c1.sandbox name value
  have fd := V8.Delete_frame h c1.sandbox name
  refine ⟨fs, fd, fs _ (Ne.symm hne), fd _ (Ne.symm hne), ?_⟩
  intro hsb hgl property
  exact ⟨reads_frame h _ c1.sandbox fs (V8.Set_length h _ _ _) data2 c2 h2 hsb hgl property,
    reads_frame h _ c1.sandbox fd (V8.Delete_length h _ _) data2 c2 h2 hsb hgl property⟩

/-- Witness of `cross_context_frame`: writing `g = 5` through `inheritWrap` (sandbox 1)
is not seen through `baseWrap` (sandbox 0), whose chains do not pass through handle 1. -/
theorem cross_context_frame_witness :
    inheritWrap.ctx = some inheritCtx
    ∧ baseWrap.ctx = some baseCtx
    ∧ inheritCtx.sandbox ≠ baseCtx.sandbox
    ∧ inheritCtx.sandbox
        ∉ (V8.prototypeChain inheritHeap.length inheritHeap baseCtx.sandbox).map Prod.fst
    ∧ inheritCtx.sandbox
        ∉ (V8.prototypeChain inheritHeap.length inheritHeap baseCtx.proxyGlobal).map Prod.fst
    ∧ GlobalPropertyGetter
        (GlobalPropertySetter inheritHeap inheritWrap "g" (Value.number 5)).2 baseWrap "g"
        = GlobalPropertyGetter inheritHeap baseWrap "g" :=
  ⟨rfl, rfl, by decide, by decide, by decide,
    ((cross_context_frame inheritHeap inheritWrap baseWrap inheritCtx baseCtx rfl rfl
      (by decide) "g" (Value.number 5)).2.2.2.2 (by decide) (by decide) "g").1.1⟩

/-! ## The entry points -/

theorem createV8Context_heap (E : Engine) (w : World) (jsContextify sandbox : Nat) :
    ∃ o1 o2, (ContextWrap.createV8Context E w jsContextify sandbox).2.2.heap
      = w.heap ++ [o1, o2] := by
  refine ⟨wrapperObject,
    { E.NewGlobal (V8.GetConstructorName (w.heap ++ [wrapperObject]) sandbox) with
      tmpl := some (Template.ftmpl
        (V8.GetConstructorName (w.heap ++ [wrapperObject]) sandbox)) }, ?_⟩
  simp [ContextWrap.createV8Context]

theorem New_thrown_world (E : Engine) (w : World) (info : FunctionCallbackInfo)
    (e : Exception) (he : (ContextifyContext.New E w info).1 = Outcome.thrown e) :
    (ContextifyContext.New E w info).2 = w := by
  unfold ContextifyContext.New at he ⊢
  by_cases hlen : info.Length < 1
  · simp [hlen]
  · cases hv : info.get 0 with
    | object sbox => simp [hlen, hv] at he
    | undefined => simp [hlen, hv]
    | null => simp [hlen, hv]
    | boolean b => simp [hlen, hv]
    | number n => simp [hlen, hv]
    | string t => simp [hlen, hv]

/-- C9: the constructor `ContextifyContext::New` fails, with one of the two
invalid-argument exceptions, if and only if no argument is supplied or the first argument
is not an object.  When it fails the world is unchanged: no context, wrapper or global
object has been allocated.  When it succeeds it returns the receiver, exactly one
`ContextifyContext` and one `ContextWrap` have been added, both referring to the supplied
object as sandbox, and every object that was in the heap, the supplied one included, is
unchanged. -/
theorem New_contract (E : Engine) (w : World) (info : FunctionCallbackInfo) :
    ((∃ e, (ContextifyContext.New E w info).1 = Outcome.thrown e
        ∧ e.isInvalidArgument = true)
      ↔ (info.Length = 0 ∨ (info.get 0).IsObject = false))
    ∧ (∀ e, (ContextifyContext.New E w info).1 = Outcome.thrown e →
        (ContextifyContext.New E w info).2 = w)
    ∧ (∀ sbox, 0 < info.Length → info.get 0 = Value.object sbox →
        (ContextifyContext.New E w info).1 = Outcome.returned (Value.object info.This)
        ∧ (∃ c, c.sandbox = sbox ∧ c.handle = info.This
            ∧ (ContextifyContext.New E w info).2.contextifyContexts
                = w.contextifyContexts ++ [c]
            ∧ (ContextifyContext.New E w info).2.contextWraps
                = w.contextWraps ++ [⟨w.heap.length, some c⟩])
        ∧ (ContextifyContext.New E w info).2.contexts = w.contexts + 1
        ∧ (ContextifyContext.New E w info).2.contextifyScripts = w.contextifyScripts
        ∧ (∀ (i : Nat) (o : JSObject), w.heap[i]? = some o →
            (ContextifyContext.New E w info).2.heap[i]? = some o)) := by
  by_cases hlen : info.Length < 1
  · have h0 : info.Length = 0 := by omega
    refine ⟨?_, ?_, ?_⟩
    · simp [ContextifyContext.New, hlen, h0, Exception.isInvalidArgument]
    · intro e _
      simp [ContextifyContext.New, hlen]
    · intro sbox hpos
      omega
  · have h0 : ¬ info.Length = 0 := by omega
    cases hv : info.get 0 with
    | object sbox =>
      refine ⟨?_, ?_, ?_⟩
      · simp [ContextifyContext.New, hlen, h0, hv, Value.IsObject]
      · intro e he
        simp [ContextifyContext.New, hlen, hv] at he
      · intro s2 _ hs2
        cases hs2
        refine ⟨by simp [ContextifyContext.New, hlen, hv], ?_, ?_, ?_, ?_⟩
        · refine ⟨⟨info.This, w.contexts, sbox, w.heap.length + 1⟩, rfl, rfl, ?_, ?_⟩
          · simp [ContextifyContext.New, hlen, hv, ContextifyContext.Wrap,
              ContextWrap.createV8Context]
          · simp [ContextifyContext.New, hlen, hv, ContextifyContext.Wrap,
              ContextWrap.createV8Context]
        · simp [ContextifyContext.New, hlen, hv, ContextifyContext.Wrap,
            ContextWrap.createV8Context]
        · simp [ContextifyContext.New, hlen, hv, ContextifyContext.Wrap,
            ContextWrap.createV8Context]
        · intro i o hio
          obtain ⟨o1, o2, hheap⟩ := createV8Context_heap E w info.This sbox
          have hnew : (ContextifyContext.New E w info).2.heap = w.heap ++ [o1, o2] := by
            simp only [ContextifyContext.New, hlen, hv, ContextifyContext.Wrap, if_false]
            exact hheap
          rw [hnew]
          have hlt : i < w.heap.length := (List.getElem?_eq_some.mp hio).1
          rw [List.getElem?_append_left hlt]
          exact hio
    | undefined =>
      refine ⟨?_, ?_, ?_⟩
      · simp [ContextifyContext.New, hlen, h0, hv, Value.IsObject,
          Exception.isInvalidArgument]
      · intro e _
        simp [ContextifyContext.New, hlen, hv]
      · intro s2 _ hs2
        cases hs2
    | null =>
      refine ⟨?_, ?_, ?_⟩
      · simp [ContextifyContext.New, hlen, h0, hv, Value.IsObject,
          Exception.isInvalidArgument]
      · intro e _
        simp [ContextifyContext.New, hlen, hv]
      · intro s2 _ hs2
        cases hs2
    | boolean b =>
      refine ⟨?_, ?_, ?_⟩
      · simp [ContextifyContext.New, hlen, h0, hv, Value.IsObject,
          Exception.isInvalidArgument]
      · intro e _
        simp [ContextifyContext.New, hlen, hv]
      · intro s2 _ hs2
        cases hs2
    | number n =>
      refine ⟨?_, ?_, ?_⟩
      · simp [ContextifyContext.New, hlen, h0, hv, Value.IsObject,
          Exception.isInvalidArgument]
      · intro e _
        simp [ContextifyContext.New, hlen, hv]
      · intro s2 _ hs2
        cases hs2
    | string t =>
      refine ⟨?_, ?_, ?_⟩
      · simp [ContextifyContext.New, hlen, h0, hv, Value.IsObject,
          Exception.isInvalidArgument]
      · intro e _
        simp [ContextifyContext.New, hlen, hv]
      · intro s2 _ hs2
        cases hs2

/-- Witness of `New_contract` on `sampleWorld`: constructing a further context over the
sandbox at handle 1, with the fresh host object 8 as receiver, succeeds and returns the
receiver. -/
theorem New_contract_witness :
    0 < (FunctionCallbackInfo.mk 8 8 [Value.object 1]).Length
    ∧ (FunctionCallbackInfo.mk 8 8 [Value.object 1]).get 0 = Value.object 1
    ∧ (ContextifyContext.New sampleEngine sampleWorld ⟨8, 8, [Value.object 1]⟩).1
        = Outcome.returned (Value.object 8) :=
  ⟨by decide, by decide,
    ((New_contract sampleEngine sampleWorld ⟨8, 8, [Value.object 1]⟩).2.2 1
      (by decide) (by decide)).1⟩

/-- C10 at the failing input, a call of the `ContextifyScript` constructor with no
argument: in every world the call is rejected with the `TypeError` of the argument check,
and by then a `ContextifyScript` holding no compiled code has been allocated and wrapped in
the holder, so the world after the rejected call differs from the world before it. -/
theorem script_New_allocates_before_rejecting (E : Engine) (w : World)
    (receiver holder : Nat) :
    (ContextifyScript.New E w ⟨receiver, holder, []⟩).1
        = Outcome.thrown (Exception.TypeError "needs at least 'code' argument.")
    ∧ (ContextifyScript.New E w ⟨receiver, holder, []⟩).2.contextifyScripts
        = w.contextifyScripts ++ [⟨holder, none⟩]
    ∧ (ContextifyScript.New E w ⟨receiver, holder, []⟩).2 ≠ w := by
  refine ⟨by simp [ContextifyScript.New, FunctionCallbackInfo.Length],
    by simp [ContextifyScript.New, FunctionCallbackInfo.Length], ?_⟩
  intro hw
  have hl := congrArg (fun x => x.contextifyScripts.length) hw
  simp [ContextifyScript.New, FunctionCallbackInfo.Length] at hl

theorem completion_not_invalid (r : Except Value Value × World) (e : Exception)
    (hx : (ContextifyContext.completion r).1 = Outcome.thrown e) :
    e.isInvalidArgument = false := by
  rcases r with ⟨r, w1⟩
  cases r with
  | error x =>
    simp only [ContextifyContext.completion, Outcome.thrown.injEq] at hx
    subst hx
    rfl
  | ok v => simp [ContextifyContext.completion] at hx

/-- The three sibling entry points check their arguments first: whenever
`ContextifyContext::New`, `ContextifyContext::Run` or `ContextifyScript::RunInContext`
ends with one of the two invalid-argument exceptions, the world is the one it started
from. -/
theorem sibling_rejections_leave_world (E : Engine) (w : World) (info : FunctionCallbackInfo)
    (e : Exception) (he : e.isInvalidArgument = true) :
    ((ContextifyContext.New E w info).1 = Outcome.thrown e →
        (ContextifyContext.New E w info).2 = w)
    ∧ ((ContextifyContext.Run E w info).1 = Outcome.thrown e →
        (ContextifyContext.Run E w info).2 = w)
    ∧ ((ContextifyScript.RunInContext E w info).1 = Outcome.thrown e →
        (ContextifyScript.RunInContext E w info).2 = w) := by
  refine ⟨New_thrown_world E w info e, ?_, ?_⟩
  · intro hx
    unfold ContextifyContext.Run at hx ⊢
    by_cases hl : (info.Length == 0) = true
    · simp [hl]
    · cases hv : info.get 0 with
      | string code =>
        cases hu : ContextifyContext.Unwrap w info.This with
        | none => simp [hl, hv, hu]
        | some ctx =>
          cases hc : E.CompileScript code (ContextifyContext.origin info) with
          | error x => simp [hl, hv, hu, hc]
          | ok script =>
            simp only [hl, hv, hu, hc] at hx
            have := completion_not_invalid _ e hx
            rw [he] at this
            cases this
      | undefined => simp [hl, hv]
      | null => simp [hl, hv]
      | boolean b => simp [hl, hv]
      | number n => simp [hl, hv]
      | object id => simp [hl, hv]
  · intro hx
    unfold ContextifyScript.RunInContext at hx ⊢
    by_cases hl : (info.Length == 0) = true
    · simp [hl]
    · cases hv : info.get 0 with
      | undefined => simp [hl, hv, ContextifyContext.ToObject]
      | null => simp [hl, hv, ContextifyContext.ToObject]
      | boolean b => simp [hl, hv, ContextifyContext.ToObject, ContextifyContext.InstanceOf]
      | number n => simp [hl, hv, ContextifyContext.ToObject, ContextifyContext.InstanceOf]
      | string t => simp [hl, hv, ContextifyContext.ToObject, ContextifyContext.InstanceOf]
      | object id =>
        by_cases hi : (!ContextifyContext.InstanceOf w (Value.object id)) = true
        · simp [hl, hv, ContextifyContext.ToObject, hi]
        · cases hu : ContextifyContext.Unwrap w id with
          | none => simp [hl, hi, hv, hu, ContextifyContext.ToObject]
          | some ctx =>
            cases hu2 : ContextifyScript.Unwrap w info.This with
            | none => simp [hl, hi, hv, hu, hu2, ContextifyContext.ToObject]
            | some wrapped =>
              cases hs : wrapped.script with
              | none => simp [hl, hi, hv, hu, hu2, hs, ContextifyContext.ToObject]
              | some script =>
                simp only [hl, hi, hv, hu, hu2, hs, ContextifyContext.ToObject] at hx
                have := completion_not_invalid _ e hx
                rw [he] at this
                cases this

end Contextify
